import Mathlib

/-!
Verification of the error-correction core of the glyphinator test scripts
(`rs-test.py`, `bch-test.py`): GF(2^8) log/antilog multiplication, the
Reed-Solomon generator factor table, the padding loop, the Reed-Solomon
ecc sweep, and the BCH remainder calculator.
-/

namespace Glyphinator

/-- The precomputed Galois log table from `rs-test.py` (index 0 holds the
sentinel -255 for the zero element). -/
def galois_log : List Int := [
  -255, 255, 1, 240, 2, 225, 241, 53, 3, 38, 226, 133, 242, 43, 54, 210, 4, 195, 39, 114, 227, 
  106, 134, 28, 243, 140, 44, 23, 55, 118, 211, 234, 5, 219, 196, 96, 40, 222, 115, 103, 228, 78, 
  107, 125, 135, 8, 29, 162, 244, 186, 141, 180, 45, 99, 24, 49, 56, 13, 119, 153, 212, 199, 235, 
  91, 6, 76, 220, 217, 197, 11, 97, 184, 41, 36, 223, 253, 116, 138, 104, 193, 229, 86, 79, 171, 
  108, 165, 126, 145, 136, 34, 9, 74, 30, 32, 163, 84, 245, 173, 187, 204, 142, 81, 181, 190, 46, 
  88, 100, 159, 25, 231, 50, 207, 57, 147, 14, 67, 120, 128, 154, 248, 213, 167, 200, 63, 236, 
  110, 92, 176, 7, 161, 77, 124, 221, 102, 218, 95, 198, 90, 12, 152, 98, 48, 185, 179, 42, 209, 
  37, 132, 224, 52, 254, 239, 117, 233, 139, 22, 105, 27, 194, 113, 230, 206, 87, 158, 80, 189, 
  172, 203, 109, 175, 166, 62, 127, 247, 146, 66, 137, 192, 35, 252, 10, 183, 75, 216, 31, 83, 
  33, 73, 164, 144, 85, 170, 246, 65, 174, 61, 188, 202, 205, 157, 143, 169, 82, 72, 182, 215, 
  191, 251, 47, 178, 89, 151, 101, 94, 160, 123, 26, 112, 232, 21, 51, 238, 208, 131, 58, 69, 
  148, 18, 15, 16, 68, 17, 121, 149, 129, 19, 155, 59, 249, 70, 214, 250, 168, 71, 201, 156, 64, 
  60, 237, 130, 111, 20, 93, 122, 177, 150]


/-- The precomputed Galois antilog table from `rs-test.py`. -/
def galois_antilog : List Nat := [
  1, 2, 4, 8, 16, 32, 64, 128, 45, 90, 180, 69, 138, 57, 114, 228, 229, 231, 227, 235, 251, 219, 
  155, 27, 54, 108, 216, 157, 23, 46, 92, 184, 93, 186, 89, 178, 73, 146, 9, 18, 36, 72, 144, 13, 
  26, 52, 104, 208, 141, 55, 110, 220, 149, 7, 14, 28, 56, 112, 224, 237, 247, 195, 171, 123, 
  246, 193, 175, 115, 230, 225, 239, 243, 203, 187, 91, 182, 65, 130, 41, 82, 164, 101, 202, 185, 
  95, 190, 81, 162, 105, 210, 137, 63, 126, 252, 213, 135, 35, 70, 140, 53, 106, 212, 133, 39, 
  78, 156, 21, 42, 84, 168, 125, 250, 217, 159, 19, 38, 76, 152, 29, 58, 116, 232, 253, 215, 131, 
  43, 86, 172, 117, 234, 249, 223, 147, 11, 22, 44, 88, 176, 77, 154, 25, 50, 100, 200, 189, 87, 
  174, 113, 226, 233, 255, 211, 139, 59, 118, 236, 245, 199, 163, 107, 214, 129, 47, 94, 188, 85, 
  170, 121, 242, 201, 191, 83, 166, 97, 194, 169, 127, 254, 209, 143, 51, 102, 204, 181, 71, 142, 
  49, 98, 196, 165, 103, 206, 177, 79, 158, 17, 34, 68, 136, 61, 122, 244, 197, 167, 99, 198, 
  161, 111, 222, 145, 15, 30, 60, 120, 240, 205, 183, 67, 134, 33, 66, 132, 37, 74, 148, 5, 10, 
  20, 40, 80, 160, 109, 218, 153, 31, 62, 124, 248, 221, 151, 3, 6, 12, 24, 48, 96, 192, 173, 
  119, 238, 241, 207, 179, 75, 150, 1]

/-- `galois_mult` from `rs-test.py`: `antilog[(log[a] + log[b]) % 255]`.
There is no zero check; Python's `%` on a possibly negative sum is the
nonnegative remainder, i.e. `Int.emod`. -/
def galois_mult (a b : Nat) : Nat :=
  galois_antilog.getD ((galois_log.getD a 0 + galois_log.getD b 0) % 255).toNat 0

/-- The loop of `galois_pow`: `r := galois_mult r a`, repeated `k` times. -/
def galois_pow_loop (a : Nat) : Nat → Nat → Nat
  | 0, r => r
  | k+1, r => galois_pow_loop a k (galois_mult r a)

/-- `galois_pow` from `rs-test.py`. -/
def galois_pow (a b : Nat) : Nat :=
  if b = 0 then 1
  else if b = 1 then a
  else galois_pow_loop a (b - 1) a

/-- The hard-coded `factor_tables` dictionary from `rs-test.py`. -/
def factor_tables (n : Nat) : Option (List Nat) :=
  if n = 5 then some [228, 48, 15, 111, 62]
  else if n = 7 then some [23, 68, 144, 134, 240, 92, 254]
  else if n = 10 then some [28, 24, 185, 166, 223, 248, 116, 255, 110, 61]
  else if n = 12 then some [41, 153, 158, 91, 61, 42, 142, 213, 97, 178, 100, 242]
  else if n = 14 then some [156, 97, 192, 252, 95, 9, 157, 119, 138, 45, 18, 186, 83, 185]
  else if n = 18 then
    some [83, 195, 100, 39, 188, 75, 66, 61, 241, 213, 109, 129, 94, 254, 225, 48, 90, 188]
  else if n = 20 then
    some [15, 195, 244, 9, 233, 71, 168, 2, 188, 160, 153, 145, 253, 79, 108, 82, 27, 174, 186, 172]
  else none

/-- Inner loop of the general factor-table builder in `rs-test.py`:
`j` descends from `i-1` to 0; slot `j` is multiplied by `2^i` and, when
`j > 0`, xored with slot `j-1`.  The first recursion argument is `j+1`. -/
def ft_inner (p2i : Nat) : Nat → List Nat → List Nat
  | 0, fs => fs
  | j+1, fs =>
    let fs1 := fs.set j (galois_mult (fs.getD j 0) p2i)
    let fs2 := if 0 < j then fs1.set j ((fs1.getD j 0) ^^^ (fs1.getD (j-1) 0)) else fs1
    ft_inner p2i j fs2

/-- Outer loop of the general factor-table builder: `i` ascends from 0 to
`n` inclusive; the first recursion argument counts remaining iterations. -/
def ft_outer : Nat → Nat → List Nat → List Nat
  | 0, _, fs => fs
  | k+1, i, fs => ft_outer k (i+1) (ft_inner (galois_pow 2 i) i fs)

/-- The general factor-table algorithm of `factor_table` in `rs-test.py`,
run unconditionally (never consulting the hard-coded dictionary):
`factors = bytearray(ecc_size)` then the double loop. -/
def factor_table_general (n : Nat) : List Nat :=
  ft_outer (n+1) 0 (List.replicate n 0)

/-- `factor_table` from `rs-test.py`: the hard-coded dictionary when the
key exists, else the general builder. -/
def factor_table (n : Nat) : List Nat :=
  match factor_tables n with
  | some t => t
  | none => factor_table_general n

/-- One byte of the padding loop in `rs-test.py` at position `i`, where
`start` is the original data length (`pad_start`). -/
def pad_byte (start i : Nat) : Nat :=
  if i = start then 129
  else
    let p := ((149 * (i+1)) % 253 + 130) % 254
    if p = 0 then 254 else p

/-- The padding bytes appended for positions `i, i+1, ..., i+k-1`
(second recursion argument is the remaining count `k`). -/
def pad_bytes (start : Nat) : Nat → Nat → List Nat
  | _, 0 => []
  | i, k+1 => pad_byte start i :: pad_bytes start (i+1) k

/-- The padding loop of `rs-test.py` (`rs_pad` of the spec): append
`pad_byte` for every position from `len(data)` up to `target - 1`. -/
def rs_pad (data : List Nat) (target : Nat) : List Nat :=
  data ++ pad_bytes data.length data.length (target - data.length)

/-- One iteration of the `calc_bch` loop of `bch-test.py` at index `i`:
`test = v ^^^ (p <<< i)`; `v` becomes `test` exactly when `test < v`. -/
def bch_step (p i v : Nat) : Nat :=
  let test := v ^^^ (p <<< i)
  if test < v then test else v

/-- The `calc_bch` loop, `i` descending from `n-1` down to 0. -/
def bch_loop (p : Nat) : Nat → Nat → Nat
  | 0, v => v
  | n+1, v => bch_loop p n (bch_step p n v)

/-- `calc_bch` from `bch-test.py`: shift `v` left by `pw-1` bits, then run
the descending conditional-xor loop over `i = vw-1 .. 0`. -/
def calc_bch (v vw p pw : Nat) : Nat :=
  bch_loop p vw (v <<< (pw - 1))

/-- The value written in place by the inner ecc loop of `rs-test.py` at
step `j`: 0 when `t = 0`, else `antilog[(log[t] + log[f[s-j-1]]) % 255]`
(the body inlines the multiplication rather than calling `galois_mult`). -/
def ecc_mult (t fv : Nat) : Nat :=
  if t = 0 then 0
  else galois_antilog.getD ((galois_log.getD t 0 + galois_log.getD fv 0) % 255).toNat 0

/-- Step `j` of the inner ecc loop, mutating the accumulator in place:
`ecc[j] := ecc_mult t f[s-j-1]`; then, when `j+1 < s`,
`ecc[j] := ecc[j+1] ^^^ ecc[j]`. -/
def ecc_step (t : Nat) (f : List Nat) (s : Nat) (ecc : List Nat) (j : Nat) : List Nat :=
  let e1 := ecc.set j (ecc_mult t (f.getD (s - j - 1) 0))
  if j + 1 < s then e1.set j ((e1.getD (j+1) 0) ^^^ (e1.getD j 0)) else e1

/-- The inner ecc loop: steps `j, j+1, ..., j+k-1` in ascending order on
the shared accumulator (second recursion argument is the count `k`). -/
def ecc_sweep_aux (t : Nat) (f : List Nat) (s : Nat) : Nat → Nat → List Nat → List Nat
  | _, 0, ecc => ecc
  | j, k+1, ecc => ecc_sweep_aux t f s (j+1) k (ecc_step t f s ecc j)

/-- One full pass of the inner ecc loop (`j` from 0 to `s-1`). -/
def ecc_sweep (t : Nat) (f : List Nat) (s : Nat) (ecc : List Nat) : List Nat :=
  ecc_sweep_aux t f s 0 s ecc

/-- The outer ecc loop of `rs-test.py`: for each codeword byte `d` in
order, `t = d ^^^ ecc[0]`, then one inner sweep. -/
def rs_encode_from (f : List Nat) (s : Nat) : List Nat → List Nat → List Nat
  | ecc, [] => ecc
  | ecc, d :: rest => rs_encode_from f s (ecc_sweep (d ^^^ ecc.getD 0 0) f s ecc) rest

/-- The full ecc calculation of `rs-test.py`: an all-zero accumulator of
length `s` swept over the codeword bytes. -/
def rs_encode (data f : List Nat) (s : Nat) : List Nat :=
  rs_encode_from f s (List.replicate s 0) data

/-- `gf_multiply` as the spec (section 4.1) words it: an explicit zero
check before the log table is consulted, otherwise the log/antilog
product (which is `galois_mult`). -/
def gf_multiply_spec (a b : Nat) : Nat :=
  if a = 0 ∨ b = 0 then 0 else galois_mult a b

/-- Inner loop of the general factor-table builder as it would run with
the spec's zero-checked `gf_multiply_spec` in place of `galois_mult`. -/
def ft_inner_zc (p2i : Nat) : Nat → List Nat → List Nat
  | 0, fs => fs
  | j+1, fs =>
    let fs1 := fs.set j (gf_multiply_spec (fs.getD j 0) p2i)
    let fs2 := if 0 < j then fs1.set j ((fs1.getD j 0) ^^^ (fs1.getD (j-1) 0)) else fs1
    ft_inner_zc p2i j fs2

/-- Outer loop of the zero-checked variant of the general builder. -/
def ft_outer_zc : Nat → Nat → List Nat → List Nat
  | 0, _, fs => fs
  | k+1, i, fs => ft_outer_zc k (i+1) (ft_inner_zc (galois_pow 2 i) i fs)

/-- The general factor-table algorithm run with the zero-checked
multiplication. -/
def factor_table_general_zc (n : Nat) : List Nat :=
  ft_outer_zc (n+1) 0 (List.replicate n 0)

/-- The per-byte accumulator update as the spec (section 4.4) and claim
C4 word it: position `j` of the new accumulator is `old[j+1]` (the slot
still standing from the previous byte's sweep, when `j+1 < s`) xored with
`multiply(t, f[s-1-j])` (0 when `t = 0`). -/
def ecc_sweep_spec_val (t : Nat) (f : List Nat) (s : Nat) (old : List Nat) (j : Nat) : Nat :=
  (if j + 1 < s then old.getD (j+1) 0 else 0) ^^^
    (if t = 0 then 0 else galois_mult t (f.getD (s - 1 - j) 0))

/-- The spec-side per-byte sweep: all positions computed from the
previous byte's accumulator at once. -/
def ecc_sweep_spec (t : Nat) (f : List Nat) (s : Nat) (old : List Nat) : List Nat :=
  (List.range s).map (ecc_sweep_spec_val t f s old)

/-- The spec-side outer loop over codeword bytes. -/
def rs_encode_spec_from (f : List Nat) (s : Nat) : List Nat → List Nat → List Nat
  | ecc, [] => ecc
  | ecc, d :: rest => rs_encode_spec_from f s (ecc_sweep_spec (d ^^^ ecc.getD 0 0) f s ecc) rest

/-- The spec-side ecc calculation (section 4.4 wording). -/
def rs_encode_spec (data f : List Nat) (s : Nat) : List Nat :=
  rs_encode_spec_from f s (List.replicate s 0) data

set_option maxRecDepth 4096

/-- C1 counterexample: the claim says `gf_multiply(0, b) == 0` for every
b in [0, 255], via an explicit zero check; but the code's `galois_mult`
has no zero check and `galois_mult 0 1 = 1` (likewise `galois_mult 1 0`),
so the result is not zero and the sentinel log entry is dereferenced. -/
theorem c1_counterexample : galois_mult 0 1 = 1 ∧ galois_mult 1 0 = 1 := by decide

/-- C1 (amended): `galois_mult` performs no zero check; for every operand
pair with a zero, the result is the other operand when it is nonzero and
1 when both are zero — never 0.  The sentinel log entry -255 is
dereferenced but Python's nonnegative modulo makes it act as the
logarithm of 1. -/
theorem c1_galois_mult_zero_operand :
    ∀ b : Nat, b < 256 →
      galois_mult 0 b = (if b = 0 then 1 else b) ∧
      galois_mult b 0 = (if b = 0 then 1 else b) := by decide

/-- C1 witness: the amended statement at b = 7. -/
theorem c1_witness : (7 : Nat) < 256 ∧ galois_mult 0 7 = 7 :=
  ⟨by decide, by simpa using (c1_galois_mult_zero_operand 7 (by decide)).1⟩

/-- C2: the general factor-table algorithm (`factor_table_general`, which
never consults the hard-coded dictionary) reproduces the hard-coded
reference sequences for ecc sizes 5 and 7, and hence agrees with the
dictionary-backed `factor_table` there. -/
theorem c2_factor_table_general_matches_reference :
    factor_table_general 5 = [228, 48, 15, 111, 62] ∧
    factor_table_general 7 = [23, 68, 144, 134, 240, 92, 254] ∧
    factor_table 5 = factor_table_general 5 ∧
    factor_table 7 = factor_table_general 7 := by decide

/-- C6: `calc_bch 0 5 1335 11 = 0`, and for every `v` in [0, 31] the
remainder `calc_bch v 5 1335 11` is below `2^10`. -/
theorem c6_bch_format_codes :
    calc_bch 0 5 1335 11 = 0 ∧
    ∀ v : Nat, v < 32 → calc_bch v 5 1335 11 < 2 ^ 10 := by decide

/-- C6 witness: the bounded statement applied at v = 9. -/
theorem c6_witness : (9 : Nat) < 32 ∧ calc_bch 9 5 1335 11 < 2 ^ 10 :=
  ⟨by decide, c6_bch_format_codes.2 9 (by decide)⟩

/-- C10: `galois_mult` treats zero as a multiplicative identity rather
than an absorbing element (`galois_mult 0 b = b = galois_mult b 0` for
nonzero b, `galois_mult 0 0 = 1`), and the general factor-table builder
depends on this: replacing the multiplication by the spec's zero-checked
`gf_multiply_spec` leaves the all-zero accumulator all-zero, instead of
producing the reference table. -/
theorem c10_galois_mult_zero_identity :
    (∀ b : Nat, 1 ≤ b → b ≤ 255 → galois_mult 0 b = b ∧ galois_mult b 0 = b) ∧
    galois_mult 0 0 = 1 ∧
    factor_table_general_zc 5 = [0, 0, 0, 0, 0] ∧
    factor_table_general_zc 5 ≠ factor_table_general 5 := by decide

/-- C10 witness: the zero-identity statement applied at b = 7. -/
theorem c10_witness : (1 : Nat) ≤ 7 ∧ (7 : Nat) ≤ 255 ∧ galois_mult 0 7 = 7 :=
  ⟨by decide, by decide, (c10_galois_mult_zero_identity.1 7 (by decide) (by decide)).1⟩

/-- C3 counterexample: the claim bounds the remainder by `2^(pw-2)`; at
the valid input v = 16 (exactly 5 bits), vw = 5, p = 1335 (exactly 11
bits), pw = 11, the code returns 667, which is not below
`2^9 = 512`. -/
theorem c3_counterexample :
    (16 : Nat) < 2 ^ 5 ∧ 2 ^ 10 ≤ 1335 ∧ (1335 : Nat) < 2 ^ 11 ∧ 5 < 11 ∧
    calc_bch 16 5 1335 11 = 667 ∧ ¬ calc_bch 16 5 1335 11 < 2 ^ (11 - 2) := by decide

/-- C7 counterexample: the claim says data longer than the target fails
with InvalidArgument; the code's padding loop simply appends nothing and
returns the over-long data unchanged (here length 3 > target 2). -/
theorem c7_counterexample :
    rs_pad [0, 0, 0] 2 = [0, 0, 0] ∧ (rs_pad [0, 0, 0] 2).length = 3 := by decide

/-- C8 counterexample: the claim says every `ecc_size <= 0` fails with
InvalidArgument; at `ecc_size = 0` the code raises nothing and returns
the empty factor table. -/
theorem c8_counterexample : factor_table 0 = [] := by decide

/-- Helper: the padding tail has exactly the requested length. -/
theorem pad_bytes_length (start : Nat) : ∀ k i, (pad_bytes start i k).length = k := by
  intro k
  induction k with
  | zero => intro i; rfl
  | succ k ih => intro i; simp [pad_bytes, ih]

/-- Helper: byte `d` of the padding tail started at position `i` is the
padding byte for position `i + d`. -/
theorem pad_bytes_getD (start : Nat) :
    ∀ k i d, d < k → (pad_bytes start i k).getD d 0 = pad_byte start (i + d) := by
  intro k
  induction k with
  | zero => intro i d h; omega
  | succ k ih =>
    intro i d h
    cases d with
    | zero => simp [pad_bytes]
    | succ d =>
      have h1 : d < k := by omega
      have h2 : i + 1 + d = i + (d + 1) := by omega
      show (pad_byte start i :: pad_bytes start (i+1) k).getD (d+1) 0 = _
      rw [List.getD_cons_succ, ih (i+1) d h1, h2]

/-- C7 (amended): for data strictly longer than the target size the
padding loop appends nothing and the data is returned unchanged — longer
than the target — instead of failing. -/
theorem c7_rs_pad_overlong_unchanged :
    ∀ (data : List Nat) (target : Nat), target < data.length →
      rs_pad data target = data ∧ target < (rs_pad data target).length := by
  intro data target h
  have h0 : target - data.length = 0 := by omega
  constructor
  · simp [rs_pad, h0, pad_bytes]
  · simp [rs_pad, h0, pad_bytes]; omega

/-- C7 witness: the amended statement at data `[0,0,0]`, target 2. -/
theorem c7_witness : (2 : Nat) < ([0, 0, 0] : List Nat).length ∧ rs_pad [0, 0, 0] 2 = [0, 0, 0] :=
  ⟨by decide, (c7_rs_pad_overlong_unchanged [0, 0, 0] 2 (by decide)).1⟩

/-- Helper: the hard-coded dictionary only stores tables of the keyed
length. -/
theorem factor_tables_length : ∀ n t, factor_tables n = some t → t.length = n := by
  intro n t h
  unfold factor_tables at h
  repeat'
    first
    | (split at h; rename_i hn
       · injection h with h; subst h; subst hn; rfl)
    | (exact absurd h (by simp))

/-- Helper: the inner factor-table loop preserves the accumulator length. -/
theorem ft_inner_length (p2i : Nat) : ∀ j fs, (ft_inner p2i j fs).length = fs.length := by
  intro j
  induction j with
  | zero => intro fs; rfl
  | succ j ih =>
    intro fs
    simp only [ft_inner]
    rw [ih]
    split <;> simp [List.length_set]

/-- Helper: the outer factor-table loop preserves the accumulator length. -/
theorem ft_outer_length : ∀ k i fs, (ft_outer k i fs).length = fs.length := by
  intro k
  induction k with
  | zero => intro i fs; rfl
  | succ k ih =>
    intro i fs
    simp only [ft_outer]
    rw [ih, ft_inner_length]

/-- Helper: the general builder returns a table of the requested length. -/
theorem factor_table_general_length (n : Nat) : (factor_table_general n).length = n := by
  simp [factor_table_general, ft_outer_length]

/-- C8 (amended): `factor_table` performs no validation of `ecc_size`:
`ecc_size = 0` succeeds and returns the empty table, and in general the
returned table has length exactly `ecc_size` — there is no failing path. -/
theorem c8_factor_table_length : ∀ n : Nat, (factor_table n).length = n := by
  intro n
  unfold factor_table
  split
  · rename_i t h
    exact factor_tables_length n t h
  · exact factor_table_general_length n

/-- C5: for data shorter than the target size, padding appends exactly
the spec-formula bytes — 129 at position `len(data)`, then for later
positions `(((149*(i+1)) mod 253) + 130) mod 254` with 254 substituted
when that value is 0 — and the padded result has length exactly
`target`. -/
theorem c5_rs_pad_formula :
    ∀ (data : List Nat) (target : Nat), data.length < target →
      (rs_pad data target).length = target ∧
      ∀ i, data.length ≤ i → i < target →
        (rs_pad data target).getD i 0 =
          if i = data.length then 129
          else if ((149 * (i + 1)) % 253 + 130) % 254 = 0 then 254
          else ((149 * (i + 1)) % 253 + 130) % 254 := by
  intro data target h
  constructor
  · simp [rs_pad, pad_bytes_length]
    omega
  · intro i h1 h2
    have h3 : i - data.length < target - data.length := by omega
    rw [rs_pad, List.getD_append_right _ _ _ _ h1, pad_bytes_getD _ _ _ _ h3]
    have h4 : data.length + (i - data.length) = i := by omega
    rw [h4]
    simp only [pad_byte]

/-- C5 witness: the statement applied to data `[66]`, target 3 (the
worked example of `rs-test.py`, whose first pad byte is 129). -/
theorem c5_witness :
    ([66] : List Nat).length < 3 ∧ (rs_pad [66] 3).length = 3 ∧ (rs_pad [66] 3).getD 1 0 = 129 :=
  ⟨by decide, (c5_rs_pad_formula [66] 3 (by decide)).1, by
    have h := (c5_rs_pad_formula [66] 3 (by decide)).2 1 (by decide) (by decide)
    simpa using h⟩

/-- Helper: a number below `2^(T+1)` whose bit `T` is clear is below
`2^T`. -/
theorem lt_two_pow_of_testBit_false {a T : Nat} (h1 : a < 2 ^ (T + 1))
    (h2 : a.testBit T = false) : a < 2 ^ T := by
  have hpos : 0 < 2 ^ T := Nat.pos_pow_of_pos T (by omega)
  have hq : a / 2 ^ T < 2 := by
    rw [Nat.div_lt_iff_lt_mul hpos]
    calc a < 2 ^ (T + 1) := h1
    _ = 2 * 2 ^ T := by ring
  have hm : ¬ a / 2 ^ T % 2 = 1 := by
    simpa [Nat.testBit_to_div_mod] using h2
  have h0 : a / 2 ^ T = 0 := by
    generalize hg : a / 2 ^ T = q at hq hm
    omega
  exact (Nat.div_eq_zero_iff hpos).mp h0

/-- Helper: the top bit of a number of exact bit width `w+1` is set. -/
theorem testBit_of_width {p w : Nat} (h1 : 2 ^ w ≤ p) (h2 : p < 2 ^ (w + 1)) :
    p.testBit w = true := by
  have hpos : 0 < 2 ^ w := Nat.pos_pow_of_pos w (by omega)
  have hq1 : 1 ≤ p / 2 ^ w := (Nat.one_le_div_iff hpos).mpr h1
  have hq2 : p / 2 ^ w < 2 := by
    rw [Nat.div_lt_iff_lt_mul hpos]
    calc p < 2 ^ (w + 1) := h2
    _ = 2 * 2 ^ w := by ring
  have h0 : p / 2 ^ w = 1 := by
    generalize hg : p / 2 ^ w = q at hq1 hq2
    omega
  simp [Nat.testBit_to_div_mod, h0]

/-- Helper: bits of a number strictly above its width are clear. -/
theorem testBit_false_of_lt {a n j : Nat} (h1 : a < 2 ^ n) (h2 : n ≤ j) :
    a.testBit j = false :=
  Nat.testBit_lt_two_pow (lt_of_lt_of_le h1 (Nat.pow_le_pow_right (by omega) h2))

/-- Helper: one `calc_bch` iteration at index `n` lowers the bound
`2^(w+1+n)` on the register to `2^(w+n)`, for a divisor polynomial `p` of
exact bit width `w+1`. -/
theorem bch_step_bound {p w n v : Nat} (hp1 : 2 ^ w ≤ p) (hp2 : p < 2 ^ (w + 1))
    (hv : v < 2 ^ (w + 1 + n)) : bch_step p n v < 2 ^ (w + n) := by
  have hsh : p <<< n < 2 ^ (w + 1 + n) := by
    rw [Nat.shiftLeft_eq]
    calc p * 2 ^ n < 2 ^ (w + 1) * 2 ^ n := by
          exact Nat.mul_lt_mul_of_lt_of_le hp2 (le_refl _) (Nat.pos_pow_of_pos n (by omega))
    _ = 2 ^ (w + 1 + n) := by rw [← pow_add]
  have hshT : (p <<< n).testBit (w + n) = true := by
    rw [Nat.testBit_shiftLeft]
    have : w + n - n = w := by omega
    simp [this, testBit_of_width hp1 hp2]
  have hshHigh : ∀ j, w + n < j → (p <<< n).testBit j = false := by
    intro j hj
    rw [Nat.testBit_shiftLeft]
    rcases Nat.lt_or_ge j n with hc | hc
    · simp [Nat.not_le.mpr hc]
    · have : w + 1 ≤ j - n := by omega
      simp [testBit_false_of_lt hp2 this]
  have hvHigh : ∀ j, w + n < j → v.testBit j = false := by
    intro j hj
    exact testBit_false_of_lt hv (by omega)
  cases hb : v.testBit (w + n) with
  | false =>
    have hvlt : v < 2 ^ (w + n) := by
      have : v < 2 ^ (w + n + 1) := by
        have : w + 1 + n = w + n + 1 := by omega
        rwa [this] at hv
      exact lt_two_pow_of_testBit_false this hb
    have htb : (v ^^^ (p <<< n)).testBit (w + n) = true := by
      rw [Nat.testBit_xor, hb, hshT]
      rfl
    have hlt : v < v ^^^ (p <<< n) := by
      refine Nat.lt_of_testBit (w + n) hb htb ?_
      intro j hj
      rw [Nat.testBit_xor, hshHigh j hj, Bool.xor_false]
    have : ¬ v ^^^ (p <<< n) < v := Nat.lt_asymm hlt
    simpa [bch_step, this] using hvlt
  | true =>
    have htb : (v ^^^ (p <<< n)).testBit (w + n) = false := by
      rw [Nat.testBit_xor, hb, hshT]
      rfl
    have hlt : v ^^^ (p <<< n) < v := by
      refine Nat.lt_of_testBit (w + n) htb hb ?_
      intro j hj
      rw [Nat.testBit_xor, hshHigh j hj, Bool.xor_false]
    have hxlt : v ^^^ (p <<< n) < 2 ^ (w + n) := by
      have hbound : v ^^^ (p <<< n) < 2 ^ (w + n + 1) := by
        have heq : w + 1 + n = w + n + 1 := by omega
        rw [heq] at hv hsh
        exact Nat.xor_lt_two_pow hv hsh
      exact lt_two_pow_of_testBit_false hbound htb
    simpa [bch_step, hlt] using hxlt

/-- Helper: the full descending `calc_bch` loop brings the register below
`2^w` when it starts below `2^(w+n)` for `n` iterations. -/
theorem bch_loop_bound {p w : Nat} (hp1 : 2 ^ w ≤ p) (hp2 : p < 2 ^ (w + 1)) :
    ∀ n v, v < 2 ^ (w + n) → bch_loop p n v < 2 ^ w := by
  intro n
  induction n with
  | zero => intro v hv; simpa [bch_loop] using hv
  | succ n ih =>
    intro v hv
    have hstep : bch_step p n v < 2 ^ (w + n) := by
      apply bch_step_bound hp1 hp2
      have : w + 1 + n = w + (n + 1) := by omega
      rwa [this]
    exact ih (bch_step p n v) hstep

/-- C3 (amended): for every valid input (`v` of bit width `vw`, generator
polynomial `p` of exact bit width `pw` with `pw > vw`) the result of
`calc_bch v vw p pw` is below `2^(pw-1)`, i.e. its bit width is at most
`pw - 1` (the claimed strict `2^(pw-2)` bound fails, see the
counterexample). -/
theorem c3_bch_width_bound :
    ∀ v vw p pw : Nat, v < 2 ^ vw → 2 ^ (pw - 1) ≤ p → p < 2 ^ pw → vw < pw →
      calc_bch v vw p pw < 2 ^ (pw - 1) := by
  intro v vw p pw hv hp1 hp2 hvp
  cases pw with
  | zero => omega
  | succ w =>
    have hp1w : 2 ^ w ≤ p := by simpa using hp1
    have hp2w : p < 2 ^ (w + 1) := hp2
    have hsimp : w + 1 - 1 = w := by omega
    rw [calc_bch, hsimp]
    apply bch_loop_bound hp1w hp2w
    rw [Nat.shiftLeft_eq]
    calc v * 2 ^ w < 2 ^ vw * 2 ^ w := by
          exact Nat.mul_lt_mul_of_lt_of_le hv (le_refl _) (Nat.pos_pow_of_pos w (by omega))
    _ = 2 ^ (vw + w) := by rw [← pow_add]
    _ ≤ 2 ^ (w + vw) := by rw [Nat.add_comm]

/-- C3 witness: the amended bound applied at v = 9, vw = 5, p = 1335,
pw = 11 (the worked example of `bch-test.py`, remainder 737 < 1024). -/
theorem c3_witness :
    (9 : Nat) < 2 ^ 5 ∧ 2 ^ 10 ≤ 1335 ∧ (1335 : Nat) < 2 ^ 11 ∧ 5 < 11 ∧
      calc_bch 9 5 1335 11 < 2 ^ 10 :=
  ⟨by decide, by decide, by decide, by decide,
    c3_bch_width_bound 9 5 1335 11 (by decide) (by decide) (by decide) (by decide)⟩

/-- Helper (table fact): for a nonzero field element the log entry lies
in [1, 255] and the antilog table inverts it modulo 255. -/
theorem galois_log_table_fact :
    ∀ a : Nat, a < 256 → 1 ≤ a →
      1 ≤ galois_log.getD a 0 ∧ galois_log.getD a 0 ≤ 255 ∧
      galois_antilog.getD ((galois_log.getD a 0) % 255).toNat 0 = a := by decide

/-- Helper (table fact): for an exponent below 255 the antilog entry is a
nonzero field element and the log table inverts it modulo 255. -/
theorem galois_antilog_table_fact :
    ∀ k : Nat, k < 255 →
      1 ≤ galois_antilog.getD k 0 ∧ galois_antilog.getD k 0 ≤ 255 ∧
      (galois_log.getD (galois_antilog.getD k 0) 0) % 255 = (k : Int) := by decide

/-- Helper: the product of two nonzero field elements is a nonzero field
element whose log is congruent to the sum of the logs modulo 255. -/
theorem galois_mult_log (a b : Nat) :
    1 ≤ galois_mult a b ∧ galois_mult a b ≤ 255 ∧
    (galois_log.getD (galois_mult a b) 0) % 255 =
      (galois_log.getD a 0 + galois_log.getD b 0) % 255 := by
  have hsum_nonneg : (0 : Int) ≤ (galois_log.getD a 0 + galois_log.getD b 0) % 255 :=
    Int.emod_nonneg _ (by norm_num)
  have hsum_lt : (galois_log.getD a 0 + galois_log.getD b 0) % 255 < 255 :=
    Int.emod_lt_of_pos _ (by norm_num)
  have hk : ((galois_log.getD a 0 + galois_log.getD b 0) % 255).toNat < 255 := by
    rw [Int.toNat_lt hsum_nonneg]
    exact_mod_cast hsum_lt
  have hmult : galois_mult a b =
      galois_antilog.getD ((galois_log.getD a 0 + galois_log.getD b 0) % 255).toNat 0 := rfl
  have hfact := galois_antilog_table_fact _ hk
  rw [hmult]
  refine ⟨hfact.1, hfact.2.1, ?_⟩
  rw [hfact.2.2, Int.toNat_of_nonneg hsum_nonneg]

/-- C9: restricted to nonzero field elements, `galois_mult` is
commutative, has identity 1, and is associative. -/
theorem c9_galois_mult_field_laws :
    (∀ a b : Nat, 1 ≤ a → a ≤ 255 → 1 ≤ b → b ≤ 255 →
      galois_mult a b = galois_mult b a) ∧
    (∀ a : Nat, 1 ≤ a → a ≤ 255 → galois_mult a 1 = a) ∧
    (∀ a b c : Nat, 1 ≤ a → a ≤ 255 → 1 ≤ b → b ≤ 255 → 1 ≤ c → c ≤ 255 →
      galois_mult (galois_mult a b) c = galois_mult a (galois_mult b c)) := by
  refine ⟨?_, ?_, ?_⟩
  · intro a b _ _ _ _
    unfold galois_mult
    rw [Int.add_comm]
  · intro a ha1 ha2
    have hk := galois_log_table_fact a (by omega) ha1
    have hone : galois_log.getD 1 0 = 255 := rfl
    have hmult : galois_mult a 1 =
        galois_antilog.getD ((galois_log.getD a 0 + galois_log.getD 1 0) % 255).toNat 0 := rfl
    rw [hmult, hone]
    have : (galois_log.getD a 0 + 255) % 255 = galois_log.getD a 0 % 255 := by omega
    rw [this]
    exact hk.2.2
  · intro a b c _ _ _ _ _ _
    obtain ⟨hab1, hab2, hablog⟩ := galois_mult_log a b
    obtain ⟨hbc1, hbc2, hbclog⟩ := galois_mult_log b c
    have hL : galois_mult (galois_mult a b) c =
        galois_antilog.getD
          ((galois_log.getD (galois_mult a b) 0 + galois_log.getD c 0) % 255).toNat 0 := rfl
    have hR : galois_mult a (galois_mult b c) =
        galois_antilog.getD
          ((galois_log.getD a 0 + galois_log.getD (galois_mult b c) 0) % 255).toNat 0 := rfl
    have key : (galois_log.getD (galois_mult a b) 0 + galois_log.getD c 0) % 255
        = (galois_log.getD a 0 + galois_log.getD (galois_mult b c) 0) % 255 := by
      calc (galois_log.getD (galois_mult a b) 0 + galois_log.getD c 0) % 255
          = ((galois_log.getD (galois_mult a b) 0) % 255 + (galois_log.getD c 0) % 255) % 255 :=
            Int.add_emod _ _ _
        _ = ((galois_log.getD a 0 + galois_log.getD b 0) % 255 + (galois_log.getD c 0) % 255)
              % 255 := by rw [hablog]
        _ = ((galois_log.getD a 0 + galois_log.getD b 0) + galois_log.getD c 0) % 255 :=
            (Int.add_emod _ _ _).symm
        _ = (galois_log.getD a 0 + (galois_log.getD b 0 + galois_log.getD c 0)) % 255 := by
            rw [Int.add_assoc]
        _ = ((galois_log.getD a 0) % 255 + (galois_log.getD b 0 + galois_log.getD c 0) % 255)
              % 255 := Int.add_emod _ _ _
        _ = ((galois_log.getD a 0) % 255 + (galois_log.getD (galois_mult b c) 0) % 255) % 255 :=
            by rw [hbclog]
        _ = (galois_log.getD a 0 + galois_log.getD (galois_mult b c) 0) % 255 :=
            (Int.add_emod _ _ _).symm
    rw [hL, hR, key]

/-- C9 witness: the three laws applied at concrete nonzero elements. -/
theorem c9_witness :
    galois_mult 3 7 = galois_mult 7 3 ∧ galois_mult 5 1 = 5 ∧
      galois_mult (galois_mult 2 3) 4 = galois_mult 2 (galois_mult 3 4) :=
  ⟨c9_galois_mult_field_laws.1 3 7 (by decide) (by decide) (by decide) (by decide),
    c9_galois_mult_field_laws.2.1 5 (by decide) (by decide),
    c9_galois_mult_field_laws.2.2 2 3 4 (by decide) (by decide) (by decide) (by decide)
      (by decide) (by decide)⟩

/-- Helper: the inlined multiplication of the ecc loop is `galois_mult`
guarded by the `t == 0` test. -/
theorem ecc_mult_eq (t fv : Nat) : ecc_mult t fv = if t = 0 then 0 else galois_mult t fv := rfl

/-- Helper: reading back the slot just written by `List.set`. -/
theorem getD_set_self (l : List Nat) (j a : Nat) (h : j < l.length) :
    (l.set j a).getD j 0 = a := by
  rw [List.getD_eq_getElem?_getD, List.getElem?_set_self h]
  rfl

/-- Helper: `List.set` leaves every other slot unchanged. -/
theorem getD_set_ne (l : List Nat) {i j : Nat} (a : Nat) (h : i ≠ j) :
    (l.set i a).getD j 0 = l.getD j 0 := by
  rw [List.getD_eq_getElem?_getD, List.getElem?_set_ne h, ← List.getD_eq_getElem?_getD]

/-- Helper: one ecc step preserves the accumulator length. -/
theorem ecc_step_length (t : Nat) (f : List Nat) (s : Nat) (ecc : List Nat) (j : Nat) :
    (ecc_step t f s ecc j).length = ecc.length := by
  simp only [ecc_step]
  split <;> simp [List.length_set]

/-- Helper: ecc step `j` writes only slot `j`. -/
theorem ecc_step_getD_ne (t : Nat) (f : List Nat) (s : Nat) (ecc : List Nat) (j m : Nat)
    (h : m ≠ j) :
    (ecc_step t f s ecc j).getD m 0 = ecc.getD m 0 := by
  simp only [ecc_step]
  split
  · rw [getD_set_ne _ _ (Ne.symm h), getD_set_ne _ _ (Ne.symm h)]
  · rw [getD_set_ne _ _ (Ne.symm h)]

/-- Helper: ecc step `j` writes into slot `j` exactly the spec-side value
computed from the accumulator as it stood before the step. -/
theorem ecc_step_getD_self (t : Nat) (f : List Nat) (s : Nat) (ecc : List Nat) (j : Nat)
    (h : j < ecc.length) (hs : ecc.length = s) :
    (ecc_step t f s ecc j).getD j 0 = ecc_sweep_spec_val t f s ecc j := by
  have hsub : s - j - 1 = s - 1 - j := by omega
  simp only [ecc_step]
  by_cases hc : j + 1 < s
  · rw [if_pos hc]
    have h1 : j < (ecc.set j (ecc_mult t (f.getD (s - j - 1) 0))).length := by
      rw [List.length_set]
      exact h
    rw [getD_set_self _ _ _ h1, getD_set_ne _ _ (by omega : j ≠ j + 1),
      getD_set_self _ _ _ h]
    unfold ecc_sweep_spec_val
    rw [if_pos hc, ecc_mult_eq, hsub]
  · rw [if_neg hc, getD_set_self _ _ _ h]
    unfold ecc_sweep_spec_val
    rw [if_neg hc, Nat.zero_xor, ecc_mult_eq, hsub]

/-- Helper: the spec-side slot value depends on the old accumulator only
through slot `j+1`. -/
theorem ecc_sweep_spec_val_congr (t : Nat) (f : List Nat) (s : Nat) (old1 old2 : List Nat)
    (j : Nat) (h : old1.getD (j+1) 0 = old2.getD (j+1) 0) :
    ecc_sweep_spec_val t f s old1 j = ecc_sweep_spec_val t f s old2 j := by
  unfold ecc_sweep_spec_val
  rw [h]

/-- Helper: the inner loop's forward sweep computes, at every position it
visits, the spec-side value of the accumulator it started from: slot
`j+1` read at step `j` has not yet been overwritten in this pass. -/
theorem ecc_sweep_aux_getD (t : Nat) (f : List Nat) (s : Nat) :
    ∀ k j ecc, ecc.length = s → j + k = s → ∀ m,
      (ecc_sweep_aux t f s j k ecc).getD m 0 =
        if j ≤ m ∧ m < s then ecc_sweep_spec_val t f s ecc m else ecc.getD m 0 := by
  intro k
  induction k with
  | zero =>
    intro j ecc hlen hjk m
    simp only [ecc_sweep_aux]
    rw [if_neg]
    rintro ⟨h1, h2⟩
    omega
  | succ k ih =>
    intro j ecc hlen hjk m
    simp only [ecc_sweep_aux]
    have hj : j < s := by omega
    have hlen' : (ecc_step t f s ecc j).length = s := by rw [ecc_step_length, hlen]
    rw [ih (j+1) (ecc_step t f s ecc j) hlen' (by omega) m]
    by_cases h1 : j + 1 ≤ m ∧ m < s
    · rw [if_pos h1, if_pos (by omega : j ≤ m ∧ m < s)]
      exact ecc_sweep_spec_val_congr t f s _ _ m
        (ecc_step_getD_ne t f s ecc j (m+1) (by omega))
    · rw [if_neg h1]
      by_cases h2 : m = j
      · subst h2
        rw [if_pos ⟨Nat.le_refl m, hj⟩]
        exact ecc_step_getD_self t f s ecc m (by omega) hlen
      · rw [if_neg (by rintro ⟨c1, c2⟩; omega)]
        exact ecc_step_getD_ne t f s ecc j m h2

/-- Helper: the inner loop preserves the accumulator length. -/
theorem ecc_sweep_aux_length (t : Nat) (f : List Nat) (s : Nat) :
    ∀ k j ecc, (ecc_sweep_aux t f s j k ecc).length = ecc.length := by
  intro k
  induction k with
  | zero => intro j ecc; rfl
  | succ k ih =>
    intro j ecc
    simp only [ecc_sweep_aux]
    rw [ih, ecc_step_length]

/-- Helper: the spec-side sweep has length `s`. -/
theorem ecc_sweep_spec_length (t : Nat) (f : List Nat) (s : Nat) (old : List Nat) :
    (ecc_sweep_spec t f s old).length = s := by
  simp [ecc_sweep_spec]

/-- Helper: the in-place forward sweep equals the spec-side map over the
previous accumulator. -/
theorem ecc_sweep_eq_spec (t : Nat) (f : List Nat) (s : Nat) (ecc : List Nat)
    (hlen : ecc.length = s) :
    ecc_sweep t f s ecc = ecc_sweep_spec t f s ecc := by
  apply List.ext_getElem
  · rw [ecc_sweep, ecc_sweep_aux_length, hlen, ecc_sweep_spec_length]
  · intro n h1 h2
    have hn : n < s := by
      rw [ecc_sweep_spec_length] at h2
      exact h2
    rw [← List.getD_eq_getElem _ 0 h1, ← List.getD_eq_getElem _ 0 h2]
    rw [ecc_sweep, ecc_sweep_aux_getD t f s s 0 ecc hlen (by omega) n,
      if_pos ⟨Nat.zero_le n, hn⟩]
    rw [List.getD_eq_getElem _ 0 h2]
    simp [ecc_sweep_spec]

/-- Helper: the outer loops agree byte by byte. -/
theorem rs_encode_from_eq (f : List Nat) (s : Nat) :
    ∀ data ecc, ecc.length = s → rs_encode_from f s ecc data = rs_encode_spec_from f s ecc data := by
  intro data
  induction data with
  | nil => intro ecc hlen; rfl
  | cons d rest ih =>
    intro ecc hlen
    simp only [rs_encode_from, rs_encode_spec_from]
    rw [ecc_sweep_eq_spec _ _ _ _ hlen]
    exact ih _ (ecc_sweep_spec_length _ _ _ _)

/-- C4: the ecc loop of `rs-test.py` implements the specified synthetic
division as a single forward in-place sweep per input byte: for each byte
`d`, with `t = d XOR ecc[0]`, the new slot `j` is
`multiply(t, factors[s-1-j])` (0 when `t = 0`) xored with slot `j+1` as
it still stood from the previous byte's sweep; the in-place loop equals
the spec-side two-accumulator formulation on all inputs. -/
theorem c4_rs_encode_forward_sweep :
    ∀ (data f : List Nat) (s : Nat), rs_encode data f s = rs_encode_spec data f s := by
  intro data f s
  unfold rs_encode rs_encode_spec
  exact rs_encode_from_eq f s data _ (List.length_replicate s 0)

end Glyphinator
